import Mathlib

/-! photo-tool: traversal and move logic of `cmd/root.go`

A shallow embedding of `rootCmd.RunE`, `walkdir`, `walkpath`, `move` and
`Execute`, followed by the properties proved about them.

Conventions of the embedding.

* Go strings are Lean `String`s, processed through their character lists.
  `strings.ToUpper` is modelled on the ASCII range (`Char.toUpper`).
* The package-level variables `path`, `target`, `exts`, `depth`, `preview`
  are the fields of `Config`.
* The state changed by the external commands `mkdir` and `mv` is an abstract
  world `W`; `Sys W` holds the operating-system calls that read or change it.
* What a traversal sees of the file tree is given as a tree of observations:
  `DirTree` for `ioutil.ReadDir` (bounded mode) and `WalkTree` for the
  `Lstat`/`readDirNames` calls of `filepath.Walk` (unbounded mode).
* Every function returns the list of `Event`s it produced, in order.
-/

namespace PhotoTool

/-! ## Strings -/

/-- Go `strings.HasPrefix`. -/
def HasPrefix (s pre : String) : Bool :=
  pre.data.isPrefixOf s.data

/-- Go `strings.Contains`: `sub` occurs in `s` as a contiguous block. -/
def Contains (s sub : String) : Bool :=
  s.data.tails.any (fun t => sub.data.isPrefixOf t)

/-- Go `strings.ToUpper`, on the ASCII range. -/
def ToUpper (s : String) : String :=
  ⟨s.data.map Char.toUpper⟩

/-- Go `strings.Join(xs, sep)`. -/
def strJoin (xs : List String) (sep : String) : String :=
  ⟨((xs.map String.data).intersperse sep.data).flatten⟩

/-- Go `strings.Trim(s, cutset)` for a one-character cutset. -/
def Trim (s : String) (c : Char) : String :=
  ⟨((s.data.dropWhile (· == c)).reverse.dropWhile (· == c)).reverse⟩

/-- Scan of `filepath.Ext`: `rev` is the not yet inspected part of the path,
last character first, `acc` the characters already passed. -/
def extScan : List Char → List Char → List Char
  | [], _ => []
  | c :: rest, acc =>
    if c = '/' then []
    else if c = '.' then '.' :: acc
    else extScan rest (c :: acc)

/-- Go `filepath.Ext`: the suffix starting at the final dot of the last
path element, empty when that element has no dot. -/
def Ext (p : String) : String :=
  ⟨extScan p.data.reverse []⟩

/-! ## Paths -/

/-- Split a character list at every separator `sep`. -/
def splitAt (sep : Char) : List Char → List (List Char)
  | [] => [[]]
  | c :: rest =>
    if c = sep then [] :: splitAt sep rest
    else
      match splitAt sep rest with
      | [] => [[c]]
      | x :: xs => (c :: x) :: xs

/-- One step of `filepath.Clean`: `out` holds the elements kept so far, the
most recent first. Empty elements and `.` are dropped; `..` removes the last
kept element when there is one that is not itself `..`, is kept on a relative
path otherwise, and is dropped at the root of a rooted path. -/
def cleanStep (rooted : Bool) (out : List (List Char)) (e : List Char) : List (List Char) :=
  if e = [] ∨ e = ['.'] then out
  else if e = ['.', '.'] then
    match out with
    | [] => if rooted then [] else [e]
    | top :: below => if top = ['.', '.'] then e :: out else below
  else e :: out

/-- Go `filepath.Clean` with separator `/`. -/
def Clean (path : String) : String :=
  if path.data = [] then "."
  else
    let rooted := path.data.head? == some '/'
    let kept := ((splitAt '/' path.data).foldl (cleanStep rooted) []).reverse
    let body := (kept.intersperse ['/']).flatten
    if rooted then ⟨'/' :: body⟩
    else if body = [] then "." else ⟨body⟩

/-- Go `filepath.Join` of two elements: leading empty elements are ignored
and the result is cleaned. -/
def Join (a b : String) : String :=
  if a ≠ "" then Clean (a ++ "/" ++ b)
  else if b ≠ "" then Clean b
  else ""

/-! ## Dates -/

/-- The calendar part of the `time.Time` returned by `x.DateTime()`. -/
structure Date where
  year : Nat
  month : Nat
  day : Nat
deriving DecidableEq

/-- Decimal digits of `n`, padded with zeros on the left to width `w`. -/
def pad (w n : Nat) : String :=
  ⟨List.replicate (w - (Nat.repr n).length) '0' ++ (Nat.repr n).data⟩

/-- Go `d.Format("2006-01-02")`. -/
def Date.format (d : Date) : String :=
  pad 4 d.year ++ "-" ++ pad 2 d.month ++ "-" ++ pad 2 d.day

/-! ## Configuration, environment and events -/

/-- The package-level variables set from the command-line flags. -/
structure Config where
  path : String
  target : String
  exts : List String
  depth : Int
  preview : Bool
deriving DecidableEq

/-- Go constant `DEPTH`. -/
def DEPTH : Int := 100

/-- The two methods of `os.FileInfo` the program calls. -/
structure FileInfo where
  Name : String
  IsDir : Bool
deriving DecidableEq

/-- Outcome of `os.Open`, `exif.Decode` and `x.DateTime()` on one file. -/
inductive Exif where
  | openFails
  | decodeFails
  | noDateTime
  | taken (d : Date)
deriving DecidableEq

/-- The operating-system calls whose result depends on the world `W`.
`stat` is `os.Stat` (an error message when it fails), `readExif` the chain
`os.Open`, `exif.Decode`, `x.DateTime()`, and `exec` runs an external command
to completion (`exec.Command(argv...).Output()`), giving the world after it
and its error, if any. -/
structure Sys (W : Type) where
  stat : W → String → Option String
  readExif : W → String → Exif
  exec : W → List String → W × Option String

/-- What the program does that can be seen from outside, plus the entry of a
file into `move`. -/
inductive Event where
  | readDir (p : String)
  | handed (f : String) (fi : FileInfo)
  | opened (f : String)
  | ran (argv : List String)
  | printed (line : String)
deriving DecidableEq

/-! ## `move` -/

/-- Go `move(f, fi)`: the world after the call and the events of the call. -/
def move {W : Type} (sys : Sys W) (cfg : Config) (f : String) (fi : FileInfo) (w : W) :
    W × List Event :=
  if HasPrefix fi.Name "." then (w, [])
  else
    match sys.readExif w f with
    | .openFails => (w, [.opened f])
    | .decodeFails => (w, [.opened f])
    | .noDateTime => (w, [.opened f])
    | .taken d =>
      let folder := d.format
      let tp := Join cfg.target folder
      let report := Event.printed ("move " ++ f ++ " to " ++ Join tp fi.Name ++ " complate!\n")
      if !cfg.preview then
        match sys.exec w ["mkdir", "-p", tp] with
        | (w1, none) =>
          match sys.exec w1 ["mv", f, Join tp fi.Name] with
          | (w2, none) =>
            (w2, [.opened f, .ran ["mkdir", "-p", tp], .ran ["mv", f, Join tp fi.Name], report])
          | (w2, some er) =>
            (w2, [.opened f, .ran ["mkdir", "-p", tp], .ran ["mv", f, Join tp fi.Name],
                  .printed ("mv error: " ++ er ++ "\n"), report])
        | (w1, some e) =>
          (w1, [.opened f, .ran ["mkdir", "-p", tp], .printed ("mkdir error: " ++ e ++ "\n"), report])
      else (w, [.opened f, report])

/-! ## Bounded mode: `walkdir` -/

/-- What `ioutil.ReadDir` shows of the tree below a path: a non-directory
entry, a directory with the entries `ReadDir` returns for it, or a directory
on which `ReadDir` fails. -/
inductive DirTree where
  | file (name : String)
  | dir (name : String) (entries : List DirTree)
  | unreadable (name : String)

/-- The `os.FileInfo` of an entry. -/
def DirTree.info : DirTree → FileInfo
  | .file n => ⟨n, false⟩
  | .dir n _ => ⟨n, true⟩
  | .unreadable n => ⟨n, true⟩

mutual
/-- Go `walkdir(p, d)`, where `t` is what is found at `p`. -/
def walkdir {W : Type} (sys : Sys W) (cfg : Config) (p : String) (t : DirTree) (d : Int) (w : W) :
    W × List Event :=
  if d > cfg.depth ∨ d > DEPTH then (w, [])
  else
    match t with
    | .file _ => (w, [.readDir p])
    | .unreadable _ => (w, [.readDir p])
    | .dir _ fs =>
      let r := walkdirLoop sys cfg p fs d w
      (r.1, .readDir p :: r.2)
/-- The `for _, fi := range fs` loop of `walkdir`. -/
def walkdirLoop {W : Type} (sys : Sys W) (cfg : Config) (p : String) (fs : List DirTree) (d : Int)
    (w : W) : W × List Event :=
  match fs with
  | [] => (w, [])
  | fi :: rest =>
    let r1 :=
      if fi.info.IsDir then walkdir sys cfg (Join p fi.info.Name) fi (d + 1) w
      else
        let m := move sys cfg (Join p fi.info.Name) fi.info w
        (m.1, .handed (Join p fi.info.Name) fi.info :: m.2)
    let r2 := walkdirLoop sys cfg p rest d r1.1
    (r2.1, r1.2 ++ r2.2)
end

/-! ## Unbounded mode: `filepath.Walk` with `walkpath` -/

/-- A Go `error` value: the sentinel `filepath.SkipDir` or any other error. -/
inductive Err where
  | SkipDir
  | other (text : String)
deriving DecidableEq

/-- How a call ends: it returns an `error` (possibly `nil`), or it panics. -/
inductive Outcome where
  | returned (err : Option Err)
  | panicked
deriving DecidableEq

/-- Result of a call that may fail: world, events and outcome. -/
structure Res (W : Type) where
  world : W
  events : List Event
  out : Outcome

/-- Go `walkpath(p, f, err)`. `f = none` is the nil `os.FileInfo` that
`filepath.Walk` passes together with the error of a failed `Lstat`; the
method call `f.IsDir()` on it is a nil dereference. -/
def walkpath {W : Type} (sys : Sys W) (cfg : Config) (p : String) (f : Option FileInfo)
    (_err : Option Err) (w : W) : Res W :=
  match f with
  | none => ⟨w, [], .panicked⟩
  | some fi =>
    if fi.IsDir then ⟨w, [], .returned none⟩
    else if !Contains (ToUpper (strJoin cfg.exts ",")) (ToUpper (Trim (Ext p) '.')) then
      ⟨w, [], .returned none⟩
    else
      let m := move sys cfg p fi w
      ⟨m.1, .handed p fi :: m.2, .returned none⟩

/-- What `filepath.Walk` sees at a path: an entry whose `Lstat` fails, a
non-directory, a directory with its entries (`readDirNames` succeeds), or a
directory whose names cannot be read. -/
inductive WalkTree where
  | noinfo (name : String) (err : String)
  | file (name : String)
  | dir (name : String) (entries : List WalkTree)
  | baddir (name : String) (err : String)

/-- Name of an entry. -/
def WalkTree.name : WalkTree → String
  | .noinfo n _ => n
  | .file n => n
  | .dir n _ => n
  | .baddir n _ => n

/-- Whether `Lstat` succeeded on the entry and reported a directory. -/
def WalkTree.isDirInfo : WalkTree → Bool
  | .noinfo _ _ => false
  | .file _ => false
  | .dir _ _ => true
  | .baddir _ _ => true

/-- Whether `Lstat` failed on the entry. -/
def WalkTree.lstatFails : WalkTree → Bool
  | .noinfo _ _ => true
  | _ => false

/-- Type of the callback of `filepath.Walk`. -/
abbrev WalkFunc (W : Type) := String → Option FileInfo → Option Err → W → Res W

mutual
/-- Go `filepath.walk(path, info, fn)` preceded by the `Lstat` of its caller:
when `Lstat` fails the callback is called with no file information and the
error; a non-directory is passed to the callback; a directory is passed to
the callback together with the error of `readDirNames`, and when both are nil
its entries are visited in order. -/
def walk {W : Type} (fn : WalkFunc W) (path : String) (t : WalkTree) (w : W) : Res W :=
  match t with
  | .noinfo _ e => fn path none (some (.other e)) w
  | .file n => fn path (some ⟨n, false⟩) none w
  | .baddir n e => fn path (some ⟨n, true⟩) (some (.other e)) w
  | .dir n es =>
    let r1 := fn path (some ⟨n, true⟩) none w
    match r1.out with
    | .returned none =>
      let r2 := walkEntries fn path es r1.world
      ⟨r2.world, r1.events ++ r2.events, r2.out⟩
    | _ => r1
/-- The `for _, name := range names` loop of `filepath.walk`: an error of an
entry ends the loop, except `SkipDir` from a directory or from the callback
called on a failed `Lstat`. -/
def walkEntries {W : Type} (fn : WalkFunc W) (path : String) (es : List WalkTree) (w : W) :
    Res W :=
  match es with
  | [] => ⟨w, [], .returned none⟩
  | t :: rest =>
    let r := walk fn (Join path t.name) t w
    let continues : Bool :=
      match r.out with
      | .panicked => false
      | .returned none => true
      | .returned (some e) => (t.lstatFails || t.isDirInfo) && e == Err.SkipDir
    if continues then
      let r2 := walkEntries fn path rest r.world
      ⟨r2.world, r.events ++ r2.events, r2.out⟩
    else r
end

/-- Go `filepath.Walk(root, fn)`: `SkipDir` from the root is turned into nil. -/
def Walk {W : Type} (fn : WalkFunc W) (root : String) (t : WalkTree) (w : W) : Res W :=
  let r := walk fn root t w
  if r.out = .returned (some .SkipDir) then ⟨r.world, r.events, .returned none⟩ else r

/-! ## The command -/

/-- What the two traversals see when they look at `path`. -/
structure Source where
  listing : DirTree
  walked : WalkTree

/-- Go `rootCmd.RunE`. -/
def RunE {W : Type} (sys : Sys W) (cfg : Config) (src : Source) (w : W) : Res W :=
  match sys.stat w cfg.path with
  | some err => ⟨w, [], .returned (some (.other err))⟩
  | none =>
    if cfg.depth = 0 then Walk (walkpath sys cfg) cfg.path src.walked w
    else
      let r := walkdir sys cfg cfg.path src.listing 1 w
      ⟨r.1, r.2, .returned none⟩

/-- Go `Execute`: the events of the run followed by the printed error, and
the argument of `os.Exit` when it is called. -/
def Execute {W : Type} (sys : Sys W) (cfg : Config) (src : Source) (w : W) :
    List Event × Option Nat :=
  let r := RunE sys cfg src w
  match r.out with
  | .returned (some (.other e)) => (r.events ++ [.printed (e ++ "\n")], some 1)
  | .returned (some .SkipDir) => (r.events ++ [.printed "skip this directory\n"], some 1)
  | _ => (r.events, none)

/-! ## A small concrete world -/

/-- A world for concrete runs: the list of the paths that exist. A file can
be opened when it exists, carries the capture date 2021-03-05 when its name
ends in `.jpg` and no decodable metadata otherwise. `mkdir -p` adds its
argument, `mv` replaces an existing source by a different destination, every
other command fails. -/
def toySys : Sys (List String) where
  stat := fun w p => if p ∈ w then none else some ("stat " ++ p ++ ": no such file or directory")
  readExif := fun w f =>
    if f ∈ w then (if Ext f = ".jpg" then .taken ⟨2021, 3, 5⟩ else .decodeFails) else .openFails
  exec := fun w argv =>
    match argv with
    | ["mkdir", "-p", p] => (p :: w, none)
    | ["mv", s, d] =>
      if s ∈ w ∧ s ≠ d then (d :: w.filter (fun x => x ≠ s), none) else (w, some "exit status 1")
    | _ => (w, some "exit status 127")

/-- The directory `in` with the files `.hidden.jpg`, `a.jpg`, `b.png` and the
subdirectory `sub`, which holds `c.jpg` and the subdirectory `deep` with
`d.jpg`, as `ioutil.ReadDir` shows it. -/
def toyListing : DirTree :=
  .dir "in" [.file ".hidden.jpg", .file "a.jpg", .file "b.png",
    .dir "sub" [.file "c.jpg", .dir "deep" [.file "d.jpg"]]]

/-- The same tree as `filepath.Walk` sees it. -/
def toyWalked : WalkTree :=
  .dir "in" [.file ".hidden.jpg", .file "a.jpg", .file "b.png",
    .dir "sub" [.file "c.jpg", .dir "deep" [.file "d.jpg"]]]

/-- The paths of the tree. -/
def toyWorld : List String :=
  ["in", "in/.hidden.jpg", "in/a.jpg", "in/b.png", "in/sub", "in/sub/c.jpg", "in/sub/deep",
   "in/sub/deep/d.jpg"]

/-- Flags `-p in -t out -e JPG -d depth`, with or without `--preview`. -/
def toyCfg (depth : Int) (preview : Bool) : Config :=
  ⟨"in", "out", ["JPG"], depth, preview⟩

/-! ## Reading a list of events -/

/-- The files handed to `move`, in order. -/
def handedOf : List Event → List (String × FileInfo)
  | [] => []
  | .handed f fi :: rest => (f, fi) :: handedOf rest
  | _ :: rest => handedOf rest

/-- The lines printed, in order. -/
def reports : List Event → List String
  | [] => []
  | .printed l :: rest => l :: reports rest
  | _ :: rest => reports rest

/-- The external commands run, in order. -/
def commands : List Event → List (List String)
  | [] => []
  | .ran argv :: rest => argv :: commands rest
  | _ :: rest => commands rest

mutual
/-- Some entry of the tree, the root included, is one on which `Lstat` fails. -/
def WalkTree.lacksInfo (t : WalkTree) : Bool :=
  match t with
  | .noinfo _ _ => true
  | .file _ => false
  | .baddir _ _ => false
  | .dir _ es => anyLacksInfo es
/-- Some entry in or below the list is one on which `Lstat` fails. -/
def anyLacksInfo (es : List WalkTree) : Bool :=
  match es with
  | [] => false
  | t :: rest => t.lacksInfo || anyLacksInfo rest
end

/-! ## The files of a tree by level, as the specification words it -/

mutual
/-- The files below `p`, each with the number of directory levels from the
root down to its parent, where `p` itself is at level `lvl`. -/
def filesBelow (p : String) (t : DirTree) (lvl : Nat) : List (Nat × String × FileInfo) :=
  match t with
  | .file _ => []
  | .unreadable _ => []
  | .dir _ fs => filesAmong p fs lvl
/-- The files in or below the entries `fs` of the directory `p` at level `lvl`. -/
def filesAmong (p : String) (fs : List DirTree) (lvl : Nat) : List (Nat × String × FileInfo) :=
  match fs with
  | [] => []
  | fi :: rest =>
    (if fi.info.IsDir then filesBelow (Join p fi.info.Name) fi (lvl + 1)
     else [(lvl, Join p fi.info.Name, fi.info)]) ++ filesAmong p rest lvl
end

/-- The level is at most `min(depth, DEPTH)`. -/
def withinDepth (cfg : Config) (x : Nat × String × FileInfo) : Bool :=
  decide ((x.1 : Int) ≤ min cfg.depth DEPTH)

/-- The files directly inside a directory listing, as `walkdir` names them. -/
def directFiles (p : String) (fs : List DirTree) : List (String × FileInfo) :=
  (fs.filter (fun fi => !fi.info.IsDir)).map (fun fi => (Join p fi.info.Name, fi.info))

/-- The files `walkdir` is to process below `p`, in order: the files of the
tree whose parent is at a level of at most `min(depth, DEPTH)`. -/
def candidates (cfg : Config) (p : String) (t : DirTree) (lvl : Nat) : List (String × FileInfo) :=
  ((filesBelow p t lvl).filter (withinDepth cfg)).map (fun x => x.2)

/-- Calling `move` on each file of a list in turn, each call starting in the
world the previous one left: the final world and all events, the entry into
`move` followed by what that call of `move` did. -/
def moveAll {W : Type} (sys : Sys W) (cfg : Config) :
    List (String × FileInfo) → W → W × List Event
  | [], w => (w, [])
  | x :: rest, w =>
    let m := move sys cfg x.1 x.2 w
    let r := moveAll sys cfg rest m.1
    (r.1, .handed x.1 x.2 :: m.2 ++ r.2)

/-- The events other than the directory reads. -/
def withoutReads : List Event → List Event
  | [] => []
  | .readDir _ :: rest => withoutReads rest
  | e :: rest => e :: withoutReads rest

/-! ## The extension filter as the specification words it -/

/-- The last element of a path. -/
def lastElement (p : String) : List Char :=
  ((splitAt '/' p.data).getLast?).getD []

/-- The text after the final dot of the last path element, empty when that
element has no dot. -/
def afterFinalDot (p : String) : String :=
  match splitAt '.' (lastElement p) with
  | [] => ""
  | [_] => ""
  | parts => ⟨(parts.getLast?).getD []⟩

/-- The extension of `p` equals one of the entries of `exts`, letter case
ignored. -/
def extensionListed (exts : List String) (p : String) : Bool :=
  exts.any (fun e => ToUpper e == ToUpper (afterFinalDot p))

/-! ## Properties of `move` -/

theorem pad_length (w n : Nat) (hw : 0 < w) (hn : n < 10 ^ w) : (pad w n).length = w := by
  have h := Nat.repr_length n w hw hn
  simp only [pad, String.length, List.length_append, List.length_replicate] at *
  omega

theorem format_length (d : Date) (hy : d.year < 10000) (hm : d.month < 100) (hd : d.day < 100) :
    d.format.length = 10 := by
  simp only [Date.format, String.length_append]
  rw [pad_length 4 d.year (by decide) (by simpa using hy),
    pad_length 2 d.month (by decide) (by simpa using hm),
    pad_length 2 d.day (by decide) (by simpa using hd)]
  rfl

/-- C3: a file whose base name starts with a dot is skipped by `move` before
anything else happens: the world is unchanged and there is no event at all
(no open, no `mkdir`, no `mv`, no printed line), whatever the configuration.
So in unbounded mode the call of `walkpath` on it leaves the world unchanged
and produces at most the entry into `move`, and in bounded mode the loop of
`walkdir` over it does the same. -/
theorem move_hidden_skipped {W : Type} (sys : Sys W) (cfg : Config) (f : String) (fi : FileInfo)
    (w : W) (hdot : HasPrefix fi.Name "." = true) :
    move sys cfg f fi w = (w, []) ∧
    (∀ err, (walkpath sys cfg f (some fi) err w).world = w ∧
      ((walkpath sys cfg f (some fi) err w).events = [] ∨
       (walkpath sys cfg f (some fi) err w).events = [.handed f fi])) ∧
    (∀ p d, walkdirLoop sys cfg p [.file fi.Name] d w =
      (w, [.handed (Join p fi.Name) ⟨fi.Name, false⟩])) := by
  have hm : ∀ g, move sys cfg g fi w = (w, []) := by
    intro g
    simp [move, hdot]
  refine ⟨hm f, ?_, ?_⟩
  · intro err
    unfold walkpath
    simp only
    split
    · simp
    · split
      · simp
      · simp [hm]
  · intro p d
    have hm2 : move sys cfg (Join p fi.Name) ⟨fi.Name, false⟩ w = (w, []) := by
      simp [move, hdot]
    simp [walkdirLoop, DirTree.info, hm2]

theorem move_hidden_skipped_witness :
    HasPrefix (FileInfo.mk ".hidden.jpg" false).Name "." = true ∧
    move toySys (toyCfg 0 false) "in/.hidden.jpg" ⟨".hidden.jpg", false⟩ toyWorld
      = (toyWorld, []) :=
  ⟨by decide, (move_hidden_skipped toySys (toyCfg 0 false) "in/.hidden.jpg"
    ⟨".hidden.jpg", false⟩ toyWorld (by decide)).1⟩

/-- C4: a non-hidden file whose metadata gives the capture date `t`, processed
with `preview = false`, when `mkdir -p` and `mv` both succeed: `move` opens
the file, runs `mkdir -p Join(target, format t)`, runs
`mv f Join(Join(target, format t), b)` and prints its report; the world it
leaves is the one left by that successful `mv`, so that under the contract of
`mv` (after success the source is gone and the destination is present) the
file is gone from `f` and present at the destination. The directory name has
the form `YYYY-MM-DD`, ten characters, for a four-digit year. -/
theorem move_relocates {W : Type} (sys : Sys W) (cfg : Config) (f : String) (fi : FileInfo)
    (w w1 w2 : W) (t : Date) (present : W → String → Bool)
    (hvis : HasPrefix fi.Name "." = false)
    (hexif : sys.readExif w f = .taken t)
    (hprev : cfg.preview = false)
    (hmkdir : sys.exec w ["mkdir", "-p", Join cfg.target t.format] = (w1, none))
    (hmv : sys.exec w1 ["mv", f, Join (Join cfg.target t.format) fi.Name] = (w2, none))
    (hcontract : ∀ u src dst, (sys.exec u ["mv", src, dst]).2 = none →
      present (sys.exec u ["mv", src, dst]).1 src = false ∧
      present (sys.exec u ["mv", src, dst]).1 dst = true) :
    move sys cfg f fi w =
      (w2, [.opened f, .ran ["mkdir", "-p", Join cfg.target t.format],
            .ran ["mv", f, Join (Join cfg.target t.format) fi.Name],
            .printed ("move " ++ f ++ " to " ++ Join (Join cfg.target t.format) fi.Name
              ++ " complate!\n")]) ∧
    present (move sys cfg f fi w).1 f = false ∧
    present (move sys cfg f fi w).1 (Join (Join cfg.target t.format) fi.Name) = true ∧
    t.format = pad 4 t.year ++ "-" ++ pad 2 t.month ++ "-" ++ pad 2 t.day ∧
    (t.year < 10000 ∧ t.month < 100 ∧ t.day < 100 → t.format.length = 10) := by
  have hm : move sys cfg f fi w =
      (w2, [.opened f, .ran ["mkdir", "-p", Join cfg.target t.format],
            .ran ["mv", f, Join (Join cfg.target t.format) fi.Name],
            .printed ("move " ++ f ++ " to " ++ Join (Join cfg.target t.format) fi.Name
              ++ " complate!\n")]) := by
    simp [move, hvis, hexif, hprev, hmkdir, hmv]
  have hc := hcontract w1 f (Join (Join cfg.target t.format) fi.Name) (by rw [hmv])
  rw [hmv] at hc
  refine ⟨hm, ?_, ?_, rfl, fun h => format_length t h.1 h.2.1 h.2.2⟩
  · rw [hm]; exact hc.1
  · rw [hm]; exact hc.2

theorem toySys_mv_contract (u : List String) (src dst : String)
    (h : (toySys.exec u ["mv", src, dst]).2 = none) :
    decide (src ∈ (toySys.exec u ["mv", src, dst]).1) = false ∧
    decide (dst ∈ (toySys.exec u ["mv", src, dst]).1) = true := by
  simp only [toySys] at h ⊢
  by_cases hc : src ∈ u ∧ src ≠ dst
  · simp only [hc, and_self, if_true]
    simp [hc.2]
  · simp [hc] at h

theorem move_relocates_witness :
    move toySys (toyCfg 0 false) "in/a.jpg" ⟨"a.jpg", false⟩ toyWorld =
      ("out/2021-03-05/a.jpg" :: "out/2021-03-05" :: toyWorld.filter (fun x => x ≠ "in/a.jpg"),
       [.opened "in/a.jpg", .ran ["mkdir", "-p", "out/2021-03-05"],
        .ran ["mv", "in/a.jpg", "out/2021-03-05/a.jpg"],
        .printed "move in/a.jpg to out/2021-03-05/a.jpg complate!\n"]) :=
  (move_relocates toySys (toyCfg 0 false) "in/a.jpg" ⟨"a.jpg", false⟩ toyWorld
    ("out/2021-03-05" :: toyWorld)
    ("out/2021-03-05/a.jpg" :: "out/2021-03-05" :: toyWorld.filter (fun x => x ≠ "in/a.jpg"))
    ⟨2021, 3, 5⟩ (fun u x => decide (x ∈ u)) (by decide) (by decide) (by decide) (by decide)
    (by decide) toySys_mv_contract).1

/-! ## The report of `move` -/

/-- C8, as stated, fails: for `in/a.jpg` in the small world the lines printed
with `preview = true` and with `preview = false` are the same single line, so
the report does not tell whether the move ran. -/
theorem report_same_in_preview_and_real_run :
    reports (move toySys (toyCfg 0 true) "in/a.jpg" ⟨"a.jpg", false⟩ toyWorld).2 =
      reports (move toySys (toyCfg 0 false) "in/a.jpg" ⟨"a.jpg", false⟩ toyWorld).2 ∧
    reports (move toySys (toyCfg 0 false) "in/a.jpg" ⟨"a.jpg", false⟩ toyWorld).2 =
      ["move in/a.jpg to out/2021-03-05/a.jpg complate!\n"] ∧
    commands (move toySys (toyCfg 0 true) "in/a.jpg" ⟨"a.jpg", false⟩ toyWorld).2 = [] ∧
    commands (move toySys (toyCfg 0 false) "in/a.jpg" ⟨"a.jpg", false⟩ toyWorld).2 =
      [["mkdir", "-p", "out/2021-03-05"], ["mv", "in/a.jpg", "out/2021-03-05/a.jpg"]] := by
  decide

/-- C8, amended: for a file that is not skipped, the last line `move` prints
is `move <f> to <destination> complate!`, naming the source path and the
destination path; with `preview = true` it is the only line, and with
`preview = false` it is again the only line when `mkdir` and `mv` succeed, so
the two reports are then equal. -/
theorem move_report {W : Type} (sys : Sys W) (cfg : Config) (f : String) (fi : FileInfo)
    (w : W) (t : Date)
    (hvis : HasPrefix fi.Name "." = false)
    (hexif : sys.readExif w f = .taken t) :
    (reports (move sys cfg f fi w).2).getLast? =
      some ("move " ++ f ++ " to " ++ Join (Join cfg.target t.format) fi.Name ++ " complate!\n") ∧
    reports (move sys { cfg with preview := true } f fi w).2 =
      ["move " ++ f ++ " to " ++ Join (Join cfg.target t.format) fi.Name ++ " complate!\n"] ∧
    ((sys.exec w ["mkdir", "-p", Join cfg.target t.format]).2 = none →
      (sys.exec (sys.exec w ["mkdir", "-p", Join cfg.target t.format]).1
        ["mv", f, Join (Join cfg.target t.format) fi.Name]).2 = none →
      reports (move sys { cfg with preview := false } f fi w).2 =
        reports (move sys { cfg with preview := true } f fi w).2) := by
  refine ⟨?_, ?_, ?_⟩
  · simp only [move, hvis, hexif]
    cases cfg.preview
    · rcases h1 : sys.exec w ["mkdir", "-p", Join cfg.target t.format] with ⟨w1, _ | e⟩
      · rcases h2 : sys.exec w1 ["mv", f, Join (Join cfg.target t.format) fi.Name]
          with ⟨w2, _ | er⟩ <;> simp [h2, reports]
      · simp [reports]
    · simp [reports]
  · simp [move, hvis, hexif, reports]
  · intro h1 h2
    rcases h1p : sys.exec w ["mkdir", "-p", Join cfg.target t.format] with ⟨w1, e1⟩
    rw [h1p] at h1 h2
    simp only at h1 h2
    subst h1
    rcases h2p : sys.exec w1 ["mv", f, Join (Join cfg.target t.format) fi.Name] with ⟨w2, e2⟩
    rw [h2p] at h2
    simp only at h2
    subst h2
    simp [move, hvis, hexif, h1p, h2p, reports]

theorem move_report_witness :
    reports (move toySys { toyCfg 0 false with preview := true } "in/a.jpg" ⟨"a.jpg", false⟩
      toyWorld).2 = ["move in/a.jpg to out/2021-03-05/a.jpg complate!\n"] :=
  (move_report toySys (toyCfg 0 false) "in/a.jpg" ⟨"a.jpg", false⟩ toyWorld ⟨2021, 3, 5⟩
    (by decide) (by decide)).2.1

/-! ## Lists of events -/

theorem handedOf_append (a b : List Event) : handedOf (a ++ b) = handedOf a ++ handedOf b := by
  induction a with
  | nil => rfl
  | cons e a ih => cases e <;> simp [handedOf, ih]

theorem reports_append (a b : List Event) : reports (a ++ b) = reports a ++ reports b := by
  induction a with
  | nil => rfl
  | cons e a ih => cases e <;> simp [reports, ih]

theorem commands_append (a b : List Event) : commands (a ++ b) = commands a ++ commands b := by
  induction a with
  | nil => rfl
  | cons e a ih => cases e <;> simp [commands, ih]

theorem handedOf_move {W : Type} (sys : Sys W) (cfg : Config) (f : String) (fi : FileInfo)
    (w : W) : handedOf (move sys cfg f fi w).2 = [] := by
  cases hdot : HasPrefix fi.Name "."
  · cases hexif : sys.readExif w f with
    | taken t =>
      cases hp : cfg.preview
      · rcases h1 : sys.exec w ["mkdir", "-p", Join cfg.target t.format] with ⟨w1, _ | e⟩
        · rcases h2 : sys.exec w1 ["mv", f, Join (Join cfg.target t.format) fi.Name]
            with ⟨w2, _ | er⟩ <;> simp [move, hdot, hexif, hp, h1, h2, handedOf]
        · simp [move, hdot, hexif, hp, h1, handedOf]
      · simp [move, hdot, hexif, hp, handedOf]
    | _ => simp [move, hdot, hexif, handedOf]
  · simp [move, hdot, handedOf]

theorem move_preview {W : Type} (sys : Sys W) (cfg : Config) (f : String) (fi : FileInfo)
    (w : W) (hp : cfg.preview = true) :
    (move sys cfg f fi w).1 = w ∧ commands (move sys cfg f fi w).2 = [] := by
  cases hdot : HasPrefix fi.Name "."
  · cases hexif : sys.readExif w f <;> simp [move, hdot, hexif, hp, commands]
  · simp [move, hdot, commands]

theorem move_exts {W : Type} (sys : Sys W) (cfg : Config) (e : List String) (f : String)
    (fi : FileInfo) (w : W) :
    move sys { cfg with exts := e } f fi w = move sys cfg f fi w := by
  simp [move]

/-! ## `walkdir` and the levels of the tree -/

mutual
theorem filesBelow_level (p : String) (t : DirTree) (lvl : Nat) :
    ∀ x ∈ filesBelow p t lvl, lvl ≤ x.1 :=
  match t with
  | .file _ => by simp [filesBelow]
  | .unreadable _ => by simp [filesBelow]
  | .dir _ fs => by
    rw [filesBelow]
    exact filesAmong_level p fs lvl
theorem filesAmong_level (p : String) (fs : List DirTree) (lvl : Nat) :
    ∀ x ∈ filesAmong p fs lvl, lvl ≤ x.1 :=
  match fs with
  | [] => by simp [filesAmong]
  | fi :: rest => by
    intro x hx
    rw [filesAmong, List.mem_append] at hx
    rcases hx with hx | hx
    · split at hx
      · have := filesBelow_level (Join p fi.info.Name) fi (lvl + 1) x hx
        omega
      · simp at hx
        simp [hx]
    · exact filesAmong_level p rest lvl x hx
end

theorem filter_withinDepth_of_beyond (cfg : Config) (l : List (Nat × String × FileInfo))
    (lvl : Nat) (hl : ∀ x ∈ l, lvl ≤ x.1) (hg : (lvl : Int) > cfg.depth ∨ (lvl : Int) > DEPTH) :
    l.filter (withinDepth cfg) = [] := by
  rw [List.filter_eq_nil_iff]
  intro x hx
  have h1 := hl x hx
  simp only [withinDepth, decide_eq_true_eq, DEPTH] at hg ⊢
  omega

mutual
theorem walkdir_handed {W : Type} (sys : Sys W) (cfg : Config) (p : String) (t : DirTree)
    (lvl : Nat) (w : W) :
    handedOf (walkdir sys cfg p t (lvl : Int) w).2 =
      ((filesBelow p t lvl).filter (withinDepth cfg)).map (fun x => x.2) := by
  by_cases hg : (lvl : Int) > cfg.depth ∨ (lvl : Int) > DEPTH
  · rw [filter_withinDepth_of_beyond cfg _ lvl (filesBelow_level p t lvl) hg]
    unfold walkdir
    simp [hg, handedOf]
  · match t with
    | .file _ => unfold walkdir; simp [hg, handedOf, filesBelow]
    | .unreadable _ => unfold walkdir; simp [hg, handedOf, filesBelow]
    | .dir _ fs =>
      have ih := walkdirLoop_handed sys cfg p fs lvl w hg
      unfold walkdir
      simp only [hg, if_false, handedOf, filesBelow]
      exact ih
theorem walkdirLoop_handed {W : Type} (sys : Sys W) (cfg : Config) (p : String)
    (fs : List DirTree) (lvl : Nat) (w : W)
    (hg : ¬ ((lvl : Int) > cfg.depth ∨ (lvl : Int) > DEPTH)) :
    handedOf (walkdirLoop sys cfg p fs (lvl : Int) w).2 =
      ((filesAmong p fs lvl).filter (withinDepth cfg)).map (fun x => x.2) := by
  match fs with
  | [] => unfold walkdirLoop; simp [handedOf, filesAmong]
  | fi :: rest =>
    unfold walkdirLoop
    simp only [handedOf_append, filesAmong, List.filter_append, List.map_append]
    rw [walkdirLoop_handed sys cfg p rest lvl _ hg]
    congr 1
    cases hd : fi.info.IsDir
    · have hin : withinDepth cfg (lvl, Join p fi.info.Name, fi.info) = true := by
        simp only [withinDepth, decide_eq_true_eq, DEPTH] at hg ⊢
        omega
      simp [handedOf, handedOf_move, hin]
    · have ih := walkdir_handed sys cfg (Join p fi.info.Name) fi (lvl + 1) w
      simp only [Nat.cast_add, Nat.cast_one] at ih
      simp [ih]
end

/-! ## `walkdir` as a sequence of calls of `move` -/

theorem withoutReads_append (a b : List Event) :
    withoutReads (a ++ b) = withoutReads a ++ withoutReads b := by
  induction a with
  | nil => rfl
  | cons e a ih => cases e <;> simp [withoutReads, ih]

theorem withoutReads_move {W : Type} (sys : Sys W) (cfg : Config) (f : String) (fi : FileInfo)
    (w : W) : withoutReads (move sys cfg f fi w).2 = (move sys cfg f fi w).2 := by
  cases hdot : HasPrefix fi.Name "."
  · cases hexif : sys.readExif w f with
    | taken t =>
      cases hp : cfg.preview
      · rcases h1 : sys.exec w ["mkdir", "-p", Join cfg.target t.format] with ⟨w1, _ | e⟩
        · rcases h2 : sys.exec w1 ["mv", f, Join (Join cfg.target t.format) fi.Name]
            with ⟨w2, _ | er⟩ <;> simp [move, hdot, hexif, hp, h1, h2, withoutReads]
        · simp [move, hdot, hexif, hp, h1, withoutReads]
      · simp [move, hdot, hexif, hp, withoutReads]
    | _ => simp [move, hdot, hexif, withoutReads]
  · simp [move, hdot, withoutReads]

theorem moveAll_append {W : Type} (sys : Sys W) (cfg : Config) (a b : List (String × FileInfo))
    (w : W) :
    moveAll sys cfg (a ++ b) w =
      ((moveAll sys cfg b (moveAll sys cfg a w).1).1,
       (moveAll sys cfg a w).2 ++ (moveAll sys cfg b (moveAll sys cfg a w).1).2) := by
  induction a generalizing w with
  | nil => simp [moveAll]
  | cons x a ih => simp [moveAll, ih]

theorem candidates_of_beyond (cfg : Config) (p : String) (t : DirTree) (lvl : Nat)
    (hg : (lvl : Int) > cfg.depth ∨ (lvl : Int) > DEPTH) : candidates cfg p t lvl = [] := by
  unfold candidates
  rw [filter_withinDepth_of_beyond cfg _ lvl (filesBelow_level p t lvl) hg]
  rfl

mutual
theorem walkdir_moves {W : Type} (sys : Sys W) (cfg : Config) (p : String) (t : DirTree)
    (lvl : Nat) (w : W) :
    (walkdir sys cfg p t (lvl : Int) w).1 = (moveAll sys cfg (candidates cfg p t lvl) w).1 ∧
    withoutReads (walkdir sys cfg p t (lvl : Int) w).2 =
      (moveAll sys cfg (candidates cfg p t lvl) w).2 := by
  by_cases hg : (lvl : Int) > cfg.depth ∨ (lvl : Int) > DEPTH
  · rw [candidates_of_beyond cfg p t lvl hg]
    unfold walkdir
    simp [hg, withoutReads, moveAll]
  · match t with
    | .file _ => unfold walkdir; simp [hg, withoutReads, moveAll, candidates, filesBelow]
    | .unreadable _ => unfold walkdir; simp [hg, withoutReads, moveAll, candidates, filesBelow]
    | .dir _ fs =>
      have ih := walkdirLoop_moves sys cfg p fs lvl w hg
      unfold walkdir
      simp only [hg, if_false, withoutReads, candidates, filesBelow]
      exact ih
theorem walkdirLoop_moves {W : Type} (sys : Sys W) (cfg : Config) (p : String)
    (fs : List DirTree) (lvl : Nat) (w : W)
    (hg : ¬ ((lvl : Int) > cfg.depth ∨ (lvl : Int) > DEPTH)) :
    (walkdirLoop sys cfg p fs (lvl : Int) w).1 =
      (moveAll sys cfg (((filesAmong p fs lvl).filter (withinDepth cfg)).map (fun x => x.2)) w).1 ∧
    withoutReads (walkdirLoop sys cfg p fs (lvl : Int) w).2 =
      (moveAll sys cfg (((filesAmong p fs lvl).filter (withinDepth cfg)).map (fun x => x.2)) w).2 := by
  match fs with
  | [] => unfold walkdirLoop; simp [withoutReads, moveAll, filesAmong]
  | fi :: rest =>
    unfold walkdirLoop
    simp only [filesAmong, List.filter_append, List.map_append, moveAll_append,
      withoutReads_append]
    cases hd : fi.info.IsDir
    · have hin : withinDepth cfg (lvl, Join p fi.info.Name, fi.info) = true := by
        simp only [withinDepth, decide_eq_true_eq, DEPTH] at hg ⊢
        omega
      have ih := walkdirLoop_moves sys cfg p rest lvl
        (move sys cfg (Join p fi.info.Name) fi.info w).1 hg
      simp [hin, moveAll, withoutReads, withoutReads_move, ih]
    · have ih1 := walkdir_moves sys cfg (Join p fi.info.Name) fi (lvl + 1) w
      simp only [Nat.cast_add, Nat.cast_one, candidates] at ih1
      have ih := walkdirLoop_moves sys cfg p rest lvl
        (walkdir sys cfg (Join p fi.info.Name) fi ((lvl : Int) + 1) w).1 hg
      simp only [if_true, ih1.2, ih.2, ih.1]
      simp [ih1.1]
end

theorem moveAll_calls_move {W : Type} (sys : Sys W) (cfg : Config)
    (l : List (String × FileInfo)) (w : W) (f : String) (fi : FileInfo) (hmem : (f, fi) ∈ l) :
    ∃ (u : W) (before after : List Event),
      (moveAll sys cfg l w).2 = before ++ .handed f fi :: (move sys cfg f fi u).2 ++ after := by
  induction l generalizing w with
  | nil => simp at hmem
  | cons x rest ih =>
    rcases List.mem_cons.mp hmem with h | h
    · subst h
      exact ⟨w, [], (moveAll sys cfg rest (move sys cfg f fi w).1).2, by simp [moveAll]⟩
    · obtain ⟨u, before, after, hu⟩ := ih (move sys cfg x.1 x.2 w).1 h
      refine ⟨u, .handed x.1 x.2 :: (move sys cfg x.1 x.2 w).2 ++ before, after, ?_⟩
      simp [moveAll, hu]

theorem filesAmong_depth_one (cfg : Config) (p : String) (fs : List DirTree)
    (h1 : cfg.depth = 1) :
    ((filesAmong p fs 1).filter (withinDepth cfg)).map (fun x => x.2) = directFiles p fs := by
  induction fs with
  | nil => simp [filesAmong, directFiles]
  | cons fi rest ih =>
    simp only [filesAmong, List.filter_append, List.map_append, ih]
    cases hd : fi.info.IsDir
    · have hin : withinDepth cfg (1, Join p fi.info.Name, fi.info) = true := by
        simp [withinDepth, h1, DEPTH]
      simp [directFiles, hd, hin]
    · have hb := filter_withinDepth_of_beyond cfg _ (1 + 1)
        (filesBelow_level (Join p fi.info.Name) fi (1 + 1)) (by left; rw [h1]; decide)
      simp [directFiles, hd, hb]

theorem mem_candidates (cfg : Config) (p : String) (t : DirTree) (f : String) (fi : FileInfo) :
    (f, fi) ∈ candidates cfg p t 1 ↔
      ∃ lvl : Nat, (lvl, f, fi) ∈ filesBelow p t 1 ∧ (lvl : Int) ≤ min cfg.depth 100 := by
  simp only [candidates, List.mem_map, List.mem_filter, withinDepth, decide_eq_true_eq, DEPTH]
  constructor
  · rintro ⟨⟨lvl, f', fi'⟩, ⟨hmem, hle⟩, heq⟩
    simp only [Prod.mk.injEq] at heq
    obtain ⟨rfl, rfl⟩ := heq
    exact ⟨lvl, hmem, hle⟩
  · rintro ⟨lvl, hmem, hle⟩
    exact ⟨(lvl, f, fi), ⟨hmem, hle⟩, rfl⟩

/-- C2: in bounded mode (`depth > 0`) `walkdir(path, 1)` does exactly what
calling `move`, in order, on each file of the tree whose parent directory is
at a level of at most `min(depth, 100)` does, the root being level 1: it ends
in the same world and, the directory reads apart, produces the same events
(for each such file the entry into `move` followed by everything that call of
`move` did), and nothing for any other file. A file is among those processed
if and only if its level is at most `min(depth, 100)`; with `depth = 1` they
are exactly the files directly inside the root. The tree is the tree of the
results of `ioutil.ReadDir`, in which a directory that cannot be read shows
no entries. The run is this call of `walkdir` when the `Stat` of the source
path succeeds, and the call starts by reading the root. -/
theorem bounded_mode_levels {W : Type} (sys : Sys W) (cfg : Config) (src : Source) (w : W)
    (hpos : 0 < cfg.depth) :
    (walkdir sys cfg cfg.path src.listing 1 w).1 =
      (moveAll sys cfg (candidates cfg cfg.path src.listing 1) w).1 ∧
    withoutReads (walkdir sys cfg cfg.path src.listing 1 w).2 =
      (moveAll sys cfg (candidates cfg cfg.path src.listing 1) w).2 ∧
    (∀ f fi, (f, fi) ∈ candidates cfg cfg.path src.listing 1 ↔
      ∃ lvl : Nat, (lvl, f, fi) ∈ filesBelow cfg.path src.listing 1 ∧
        (lvl : Int) ≤ min cfg.depth 100) ∧
    (∀ (lvl : Nat) f fi, (lvl, f, fi) ∈ filesBelow cfg.path src.listing 1 →
      (lvl : Int) ≤ min cfg.depth 100 →
      ∃ (u : W) (before after : List Event),
        withoutReads (walkdir sys cfg cfg.path src.listing 1 w).2 =
          before ++ .handed f fi :: (move sys cfg f fi u).2 ++ after) ∧
    handedOf (walkdir sys cfg cfg.path src.listing 1 w).2 =
      ((filesBelow cfg.path src.listing 1).filter (withinDepth cfg)).map (fun x => x.2) ∧
    (∀ f fi, (f, fi) ∈ handedOf (walkdir sys cfg cfg.path src.listing 1 w).2 ↔
      ∃ lvl : Nat, (lvl, f, fi) ∈ filesBelow cfg.path src.listing 1 ∧
        (lvl : Int) ≤ min cfg.depth 100) ∧
    (cfg.depth = 1 → ∀ name fs, src.listing = .dir name fs →
      candidates cfg cfg.path src.listing 1 = directFiles cfg.path fs ∧
      handedOf (walkdir sys cfg cfg.path src.listing 1 w).2 = directFiles cfg.path fs) ∧
    (sys.stat w cfg.path = none →
      (RunE sys cfg src w).world = (walkdir sys cfg cfg.path src.listing 1 w).1 ∧
      (RunE sys cfg src w).events = (walkdir sys cfg cfg.path src.listing 1 w).2 ∧
      handedOf (RunE sys cfg src w).events =
        handedOf (walkdir sys cfg cfg.path src.listing 1 w).2) ∧
    (walkdir sys cfg cfg.path src.listing 1 w).2.head? = some (.readDir cfg.path) := by
  have hmoves := walkdir_moves sys cfg cfg.path src.listing 1 w
  simp only [Nat.cast_one] at hmoves
  have hmain := walkdir_handed sys cfg cfg.path src.listing 1 w
  simp only [Nat.cast_one] at hmain
  have hg : ¬ ((1 : Int) > cfg.depth ∨ (1 : Int) > DEPTH) := by
    simp only [DEPTH]
    omega
  have hread : (walkdir sys cfg cfg.path src.listing 1 w).2.head? =
      some (.readDir cfg.path) := by
    cases src.listing <;> (unfold walkdir; simp [hg])
  refine ⟨hmoves.1, hmoves.2, mem_candidates cfg cfg.path src.listing, ?_, hmain, ?_, ?_, ?_,
    hread⟩
  · intro lvl f fi hmem hle
    rw [hmoves.2]
    exact moveAll_calls_move sys cfg _ w f fi
      ((mem_candidates cfg cfg.path src.listing f fi).mpr ⟨lvl, hmem, hle⟩)
  · intro f fi
    rw [hmain]
    exact mem_candidates cfg cfg.path src.listing f fi
  · intro h1 name fs hroot
    have hc : candidates cfg cfg.path src.listing 1 = directFiles cfg.path fs := by
      rw [candidates, hroot, filesBelow]
      exact filesAmong_depth_one cfg cfg.path fs h1
    refine ⟨hc, ?_⟩
    rw [hmain]
    exact hc
  · intro hstat
    have hd : cfg.depth ≠ 0 := by omega
    simp [RunE, hstat, hd]

theorem bounded_mode_levels_witness :
    (walkdir toySys (toyCfg 2 false) "in" toyListing 1 toyWorld).1 =
      ["out/2021-03-05/c.jpg", "out/2021-03-05", "out/2021-03-05/a.jpg", "out/2021-03-05", "in",
       "in/.hidden.jpg", "in/b.png", "in/sub", "in/sub/deep", "in/sub/deep/d.jpg"] ∧
    withoutReads (walkdir toySys (toyCfg 2 false) "in" toyListing 1 toyWorld).2 =
      [.handed "in/.hidden.jpg" ⟨".hidden.jpg", false⟩,
       .handed "in/a.jpg" ⟨"a.jpg", false⟩, .opened "in/a.jpg",
       .ran ["mkdir", "-p", "out/2021-03-05"],
       .ran ["mv", "in/a.jpg", "out/2021-03-05/a.jpg"],
       .printed "move in/a.jpg to out/2021-03-05/a.jpg complate!\n",
       .handed "in/b.png" ⟨"b.png", false⟩, .opened "in/b.png",
       .handed "in/sub/c.jpg" ⟨"c.jpg", false⟩, .opened "in/sub/c.jpg",
       .ran ["mkdir", "-p", "out/2021-03-05"],
       .ran ["mv", "in/sub/c.jpg", "out/2021-03-05/c.jpg"],
       .printed "move in/sub/c.jpg to out/2021-03-05/c.jpg complate!\n"] :=
  ⟨(bounded_mode_levels toySys (toyCfg 2 false) ⟨toyListing, toyWalked⟩ toyWorld
      (by decide)).1.trans (by decide),
   (bounded_mode_levels toySys (toyCfg 2 false) ⟨toyListing, toyWalked⟩ toyWorld
      (by decide)).2.1.trans (by decide)⟩

/-! ## `walkdir` and the extension list -/

mutual
theorem walkdir_exts {W : Type} (sys : Sys W) (cfg : Config) (e : List String) (p : String)
    (t : DirTree) (d : Int) (w : W) :
    walkdir sys { cfg with exts := e } p t d w = walkdir sys cfg p t d w := by
  match t with
  | .file _ => unfold walkdir; rfl
  | .unreadable _ => unfold walkdir; rfl
  | .dir _ fs =>
    unfold walkdir
    simp only [walkdirLoop_exts sys cfg e p fs d w]
theorem walkdirLoop_exts {W : Type} (sys : Sys W) (cfg : Config) (e : List String) (p : String)
    (fs : List DirTree) (d : Int) (w : W) :
    walkdirLoop sys { cfg with exts := e } p fs d w = walkdirLoop sys cfg p fs d w := by
  match fs with
  | [] => unfold walkdirLoop; rfl
  | fi :: rest =>
    unfold walkdirLoop
    simp only [walkdir_exts sys cfg e (Join p fi.info.Name) fi (d + 1) w, move_exts,
      walkdirLoop_exts sys cfg e p rest d]
end

theorem walkdirLoop_hands_files {W : Type} (sys : Sys W) (cfg : Config) (p : String)
    (fs : List DirTree) (d : Int) (w : W) (name : String) (hmem : DirTree.file name ∈ fs) :
    (Join p name, (⟨name, false⟩ : FileInfo)) ∈ handedOf (walkdirLoop sys cfg p fs d w).2 := by
  induction fs generalizing w with
  | nil => simp at hmem
  | cons fi rest ih =>
    unfold walkdirLoop
    simp only [handedOf_append, List.mem_append]
    rcases List.mem_cons.mp hmem with h | h
    · left
      subst h
      simp [DirTree.info, handedOf]
    · right
      exact ih _ h

theorem moveAll_exts {W : Type} (sys : Sys W) (cfg : Config) (e : List String)
    (l : List (String × FileInfo)) (w : W) :
    moveAll sys { cfg with exts := e } l w = moveAll sys cfg l w := by
  induction l generalizing w with
  | nil => rfl
  | cons x rest ih => simp only [moveAll, move_exts, ih]

theorem walkdirLoop_calls_move {W : Type} (sys : Sys W) (cfg : Config) (p : String)
    (fs : List DirTree) (d : Int) (w : W) (name : String) (hmem : DirTree.file name ∈ fs) :
    ∃ (u : W) (before after : List Event),
      (walkdirLoop sys cfg p fs d w).2 =
        before ++ .handed (Join p name) ⟨name, false⟩ ::
          (move sys cfg (Join p name) ⟨name, false⟩ u).2 ++ after := by
  induction fs generalizing w with
  | nil => simp at hmem
  | cons fi rest ih =>
    rcases List.mem_cons.mp hmem with h | h
    · subst h
      refine ⟨w, [], (walkdirLoop sys cfg p rest d
        (move sys cfg (Join p name) ⟨name, false⟩ w).1).2, ?_⟩
      rw [walkdirLoop]
      simp [DirTree.info]
    · rw [walkdirLoop]
      simp only
      obtain ⟨u, before, after, hu⟩ := ih
        (if fi.info.IsDir = true then walkdir sys cfg (Join p fi.info.Name) fi (d + 1) w
         else ((move sys cfg (Join p fi.info.Name) fi.info w).1,
           .handed (Join p fi.info.Name) fi.info ::
             (move sys cfg (Join p fi.info.Name) fi.info w).2)).1 h
      refine ⟨u, (if fi.info.IsDir = true then walkdir sys cfg (Join p fi.info.Name) fi (d + 1) w
         else ((move sys cfg (Join p fi.info.Name) fi.info w).1,
           .handed (Join p fi.info.Name) fi.info ::
             (move sys cfg (Join p fi.info.Name) fi.info w).2)).2 ++ before, after, ?_⟩
      rw [hu]
      simp

/-- C6: `walkdir` does not look at the extension list: with any two lists the
call gives the same world and the same events, and so does the whole run in
bounded mode. Whatever the list, `walkdir(p, 1)` does exactly what calling
`move`, in order, on every file of the tree within the depth limit does (same
final world, same events apart from the directory reads), a selection in
which no extension occurs; and for every non-directory entry of a directory
read within the depth limit, and every file of the tree whose parent is at a
level of at most `min(depth, 100)`, the events contain the entry into `move`
followed by everything that call of `move` did. -/
theorem bounded_mode_ignores_exts {W : Type} (sys : Sys W) (cfg : Config)
    (exts1 exts2 : List String) (p : String) (t : DirTree) (d : Int) (w : W) :
    walkdir sys { cfg with exts := exts1 } p t d w =
      walkdir sys { cfg with exts := exts2 } p t d w ∧
    handedOf (walkdir sys { cfg with exts := exts1 } p t d w).2 =
      handedOf (walkdir sys { cfg with exts := exts2 } p t d w).2 ∧
    (∀ src : Source, cfg.depth ≠ 0 →
      (RunE sys { cfg with exts := exts1 } src w).events =
        (RunE sys { cfg with exts := exts2 } src w).events ∧
      (RunE sys { cfg with exts := exts1 } src w).world =
        (RunE sys { cfg with exts := exts2 } src w).world) ∧
    ((walkdir sys { cfg with exts := exts1 } p t 1 w).1 =
        (moveAll sys { cfg with exts := exts2 } (candidates cfg p t 1) w).1 ∧
      withoutReads (walkdir sys { cfg with exts := exts1 } p t 1 w).2 =
        (moveAll sys { cfg with exts := exts2 } (candidates cfg p t 1) w).2) ∧
    (∀ dname fs name, t = .dir dname fs → d ≤ cfg.depth → d ≤ DEPTH → DirTree.file name ∈ fs →
      ∃ (u : W) (before after : List Event),
        (walkdir sys { cfg with exts := exts1 } p t d w).2 =
          before ++ .handed (Join p name) ⟨name, false⟩ ::
            (move sys { cfg with exts := exts1 } (Join p name) ⟨name, false⟩ u).2 ++ after) ∧
    (∀ (lvl : Nat) f fi, (lvl, f, fi) ∈ filesBelow p t 1 → (lvl : Int) ≤ min cfg.depth 100 →
      ∃ (u : W) (before after : List Event),
        withoutReads (walkdir sys { cfg with exts := exts1 } p t 1 w).2 =
          before ++ .handed f fi :: (move sys { cfg with exts := exts1 } f fi u).2 ++ after) ∧
    (∀ dname fs name, t = .dir dname fs → d ≤ cfg.depth → d ≤ DEPTH → DirTree.file name ∈ fs →
      (Join p name, (⟨name, false⟩ : FileInfo)) ∈
        handedOf (walkdir sys { cfg with exts := exts1 } p t d w).2) ∧
    (∀ (lvl : Nat) f fi, (lvl, f, fi) ∈ filesBelow p t 1 → (lvl : Int) ≤ min cfg.depth 100 →
      (f, fi) ∈ handedOf (walkdir sys { cfg with exts := exts1 } p t 1 w).2) := by
  have heq : walkdir sys { cfg with exts := exts1 } p t d w =
      walkdir sys { cfg with exts := exts2 } p t d w := by
    rw [walkdir_exts sys cfg exts1, walkdir_exts sys cfg exts2]
  have hmoves := walkdir_moves sys cfg p t 1 w
  simp only [Nat.cast_one] at hmoves
  refine ⟨heq, by rw [heq], ?_, ?_, ?_, ?_, ?_, ?_⟩
  · intro src hd
    simp only [RunE]
    cases hs : sys.stat w cfg.path
    · simp only [hd, if_false]
      rw [walkdir_exts sys cfg exts1, walkdir_exts sys cfg exts2]
      exact ⟨rfl, rfl⟩
    · exact ⟨rfl, rfl⟩
  · rw [walkdir_exts sys cfg exts1, moveAll_exts sys cfg exts2]
    exact hmoves
  · intro dname fs name ht hd1 hd2 hmem
    subst ht
    rw [walkdir_exts sys cfg exts1]
    have hg : ¬ (d > cfg.depth ∨ d > DEPTH) := by omega
    obtain ⟨u, before, after, hu⟩ := walkdirLoop_calls_move sys cfg p fs d w name hmem
    refine ⟨u, .readDir p :: before, after, ?_⟩
    unfold walkdir
    simp only [hg, if_false, move_exts]
    rw [hu]
    rfl
  · intro lvl f fi hmem hle
    rw [walkdir_exts sys cfg exts1, hmoves.2]
    simp only [move_exts]
    exact moveAll_calls_move sys cfg _ w f fi
      ((mem_candidates cfg p t f fi).mpr ⟨lvl, hmem, hle⟩)
  · intro dname fs name ht hd1 hd2 hmem
    subst ht
    rw [walkdir_exts sys cfg exts1]
    have hg : ¬ (d > cfg.depth ∨ d > DEPTH) := by omega
    unfold walkdir
    simp only [hg, if_false, handedOf]
    exact walkdirLoop_hands_files sys cfg p fs d w name hmem
  · intro lvl f fi hmem hle
    have hmain := walkdir_handed sys cfg p t 1 w
    simp only [Nat.cast_one] at hmain
    rw [walkdir_exts sys cfg exts1, hmain]
    simp only [List.mem_map, List.mem_filter, withinDepth, decide_eq_true_eq, DEPTH]
    exact ⟨(lvl, f, fi), ⟨hmem, hle⟩, rfl⟩

theorem bounded_mode_ignores_exts_witness :
    walkdir toySys { toyCfg 1 false with exts := ["JPG"] } "in" toyListing 1 toyWorld =
      walkdir toySys { toyCfg 1 false with exts := ["PNG", "GIF"] } "in" toyListing 1 toyWorld ∧
    withoutReads (walkdir toySys { toyCfg 1 false with exts := ["JPG"] } "in" toyListing 1
      toyWorld).2 =
      [.handed "in/.hidden.jpg" ⟨".hidden.jpg", false⟩,
       .handed "in/a.jpg" ⟨"a.jpg", false⟩, .opened "in/a.jpg",
       .ran ["mkdir", "-p", "out/2021-03-05"],
       .ran ["mv", "in/a.jpg", "out/2021-03-05/a.jpg"],
       .printed "move in/a.jpg to out/2021-03-05/a.jpg complate!\n",
       .handed "in/b.png" ⟨"b.png", false⟩, .opened "in/b.png"] ∧
    ("in/b.png", (⟨"b.png", false⟩ : FileInfo)) ∈
      handedOf (walkdir toySys { toyCfg 1 false with exts := ["JPG"] } "in" toyListing 1
        toyWorld).2 :=
  ⟨(bounded_mode_ignores_exts toySys (toyCfg 1 false) ["JPG"] ["PNG", "GIF"] "in" toyListing 1
      toyWorld).1,
   (bounded_mode_ignores_exts toySys (toyCfg 1 false) ["JPG"] ["PNG", "GIF"] "in" toyListing 1
      toyWorld).2.2.2.1.2.trans (by decide),
   (bounded_mode_ignores_exts toySys (toyCfg 1 false) ["JPG"] ["PNG", "GIF"] "in" toyListing 1
      toyWorld).2.2.2.2.2.2.1 "in" _ "b.png" rfl (by decide) (by decide) (by simp)⟩

/-! ## `walkpath` -/

/-- C1, failing inputs: with `exts = [JPG]` the entries `in/README` (no
extension) and `in/a.jp` (extension `jp`) are handed to `move` by `walkpath`
although no entry of `exts` equals their extension; the filter tests whether
the extension occurs inside the comma-joined list, not whether it equals an
entry. `in/b.png` is not handed to `move`. -/
theorem walkpath_hands_unlisted_extension :
    extensionListed ["JPG"] "in/README" = false ∧
    handedOf (walkpath toySys (toyCfg 0 false) "in/README" (some ⟨"README", false⟩) none
      ("in/README" :: toyWorld)).events = [("in/README", ⟨"README", false⟩)] ∧
    extensionListed ["JPG"] "in/a.jp" = false ∧
    handedOf (walkpath toySys (toyCfg 0 false) "in/a.jp" (some ⟨"a.jp", false⟩) none
      ("in/a.jp" :: toyWorld)).events = [("in/a.jp", ⟨"a.jp", false⟩)] ∧
    extensionListed ["JPG"] "in/b.png" = false ∧
    handedOf (walkpath toySys (toyCfg 0 false) "in/b.png" (some ⟨"b.png", false⟩) none
      toyWorld).events = [] := by
  decide

/-- C9, failing input: a call of `walkpath` that carries no file information
panics, whatever the other arguments; in a walk over `in` with the entries
`a.jpg` and `b.jpg` where `Lstat` fails on `a.jpg` the run ends in that panic and the sibling
`b.jpg` is never handed to `move`. -/
theorem walkpath_panics_without_info {W : Type} (sys : Sys W) (cfg : Config) (p : String)
    (err : Option Err) (w : W) :
    (walkpath sys cfg p none err w).out = .panicked ∧
    (RunE toySys (toyCfg 0 false)
      ⟨toyListing, .dir "in" [.noinfo "a.jpg" "lstat in/a.jpg: permission denied", .file "b.jpg"]⟩
      ["in", "in/a.jpg", "in/b.jpg"]).out = .panicked ∧
    handedOf (RunE toySys (toyCfg 0 false)
      ⟨toyListing, .dir "in" [.noinfo "a.jpg" "lstat in/a.jpg: permission denied", .file "b.jpg"]⟩
      ["in", "in/a.jpg", "in/b.jpg"]).events = [] := by
  refine ⟨rfl, by decide, by decide⟩

/-! ## Negative depth -/

/-- C10: with a negative depth and a source path whose `Stat` succeeds, the
run takes the `walkdir(path, 1)` branch, which returns at once: no directory
is read, no file is handed to `move`, nothing else happens, the world is
unchanged and the run returns nil. -/
theorem negative_depth_does_nothing {W : Type} (sys : Sys W) (cfg : Config) (src : Source) (w : W)
    (hneg : cfg.depth < 0) (hstat : sys.stat w cfg.path = none) :
    walkdir sys cfg cfg.path src.listing 1 w = (w, []) ∧
    (RunE sys cfg src w).events = [] ∧
    (RunE sys cfg src w).world = w ∧
    (RunE sys cfg src w).out = .returned none := by
  have hd : cfg.depth ≠ 0 := by omega
  have hw : walkdir sys cfg cfg.path src.listing 1 w = (w, []) := by
    unfold walkdir
    have : (1 : Int) > cfg.depth := by omega
    simp [this]
  simp [RunE, hstat, hd, hw]

theorem negative_depth_does_nothing_witness :
    (RunE toySys (toyCfg (-3) false) ⟨toyListing, toyWalked⟩ toyWorld).events = [] :=
  (negative_depth_does_nothing toySys (toyCfg (-3) false) ⟨toyListing, toyWalked⟩ toyWorld
    (by decide) (by decide)).2.1

/-! ## Preview runs -/

mutual
theorem walkdir_preview {W : Type} (sys : Sys W) (cfg : Config) (hp : cfg.preview = true)
    (p : String) (t : DirTree) (d : Int) (w : W) :
    (walkdir sys cfg p t d w).1 = w ∧ commands (walkdir sys cfg p t d w).2 = [] := by
  match t with
  | .file _ => unfold walkdir; split <;> simp [commands]
  | .unreadable _ => unfold walkdir; split <;> simp [commands]
  | .dir _ fs =>
    have ih := walkdirLoop_preview sys cfg hp p fs d w
    unfold walkdir
    split
    · simp [commands]
    · simp [commands, ih]
theorem walkdirLoop_preview {W : Type} (sys : Sys W) (cfg : Config) (hp : cfg.preview = true)
    (p : String) (fs : List DirTree) (d : Int) (w : W) :
    (walkdirLoop sys cfg p fs d w).1 = w ∧ commands (walkdirLoop sys cfg p fs d w).2 = [] := by
  match fs with
  | [] => unfold walkdirLoop; simp [commands]
  | fi :: rest =>
    unfold walkdirLoop
    have h1 := walkdir_preview sys cfg hp (Join p fi.info.Name) fi (d + 1) w
    have h2 := move_preview sys cfg (Join p fi.info.Name) fi.info w hp
    cases hd : fi.info.IsDir
    · have h3 := walkdirLoop_preview sys cfg hp p rest d w
      simp [h2, h3, commands, commands_append]
    · have h3 := walkdirLoop_preview sys cfg hp p rest d w
      simp [h1, h3, commands_append]
end

theorem walkpath_preview {W : Type} (sys : Sys W) (cfg : Config) (hp : cfg.preview = true)
    (p : String) (f : Option FileInfo) (err : Option Err) (w : W) :
    (walkpath sys cfg p f err w).world = w ∧ commands (walkpath sys cfg p f err w).events = [] := by
  have h2 := fun fi => move_preview sys cfg p fi w hp
  unfold walkpath
  cases f with
  | none => simp [commands]
  | some fi =>
    simp only
    split
    · simp [commands]
    · split
      · simp [commands]
      · simp [commands, h2]

mutual
theorem walk_preview {W : Type} (sys : Sys W) (cfg : Config) (hp : cfg.preview = true)
    (p : String) (t : WalkTree) (w : W) :
    (walk (walkpath sys cfg) p t w).world = w ∧
      commands (walk (walkpath sys cfg) p t w).events = [] := by
  match t with
  | .noinfo _ e => unfold walk; exact walkpath_preview sys cfg hp _ _ _ _
  | .file n => unfold walk; exact walkpath_preview sys cfg hp _ _ _ _
  | .baddir n e => unfold walk; exact walkpath_preview sys cfg hp _ _ _ _
  | .dir n es =>
    have h1 := walkpath_preview sys cfg hp p (some ⟨n, true⟩) none w
    have h2 := walkEntries_preview sys cfg hp p es w
    unfold walk
    simp only
    split
    · simp [h1, h2, commands_append]
    · exact h1
theorem walkEntries_preview {W : Type} (sys : Sys W) (cfg : Config) (hp : cfg.preview = true)
    (p : String) (es : List WalkTree) (w : W) :
    (walkEntries (walkpath sys cfg) p es w).world = w ∧
      commands (walkEntries (walkpath sys cfg) p es w).events = [] := by
  match es with
  | [] => unfold walkEntries; simp [commands]
  | t :: rest =>
    have h1 := walk_preview sys cfg hp (Join p t.name) t w
    have h2 := walkEntries_preview sys cfg hp p rest w
    unfold walkEntries
    simp only
    split
    · simp [h1, h2, commands_append]
    · exact h1
end

theorem RunE_preview {W : Type} (sys : Sys W) (cfg : Config) (src : Source) (w : W)
    (hp : cfg.preview = true) :
    (RunE sys cfg src w).world = w ∧ commands (RunE sys cfg src w).events = [] := by
  unfold RunE
  cases sys.stat w cfg.path with
  | some e => simp [commands]
  | none =>
    simp only
    split
    · unfold Walk
      have h := walk_preview sys cfg hp cfg.path src.walked w
      simp only
      split
      · exact h
      · exact h
    · exact walkdir_preview sys cfg hp cfg.path src.listing 1 w

/-- C5: with `preview = true`, `move` runs no command and leaves the world as
it was, for every file; so does the whole run, in bounded and in unbounded
mode; and a second preview run over the same tree, started in the world the
first one left, produces the same events and hence the same report lines. -/
theorem preview_changes_nothing {W : Type} (sys : Sys W) (cfg : Config) (src : Source) (w : W)
    (hp : cfg.preview = true) :
    (∀ f fi, (move sys cfg f fi w).1 = w ∧ commands (move sys cfg f fi w).2 = []) ∧
    (RunE sys cfg src w).world = w ∧
    commands (RunE sys cfg src w).events = [] ∧
    (RunE sys cfg src (RunE sys cfg src w).world).events = (RunE sys cfg src w).events ∧
    reports (RunE sys cfg src (RunE sys cfg src w).world).events =
      reports (RunE sys cfg src w).events := by
  have h := RunE_preview sys cfg src w hp
  refine ⟨fun f fi => move_preview sys cfg f fi w hp, h.1, h.2, ?_, ?_⟩
  · rw [h.1]
  · rw [h.1]

theorem preview_changes_nothing_witness :
    (RunE toySys (toyCfg 0 true) ⟨toyListing, toyWalked⟩ toyWorld).world = toyWorld ∧
    reports (RunE toySys (toyCfg 0 true) ⟨toyListing, toyWalked⟩ toyWorld).events =
      ["move in/a.jpg to out/2021-03-05/a.jpg complate!\n",
       "move in/sub/c.jpg to out/2021-03-05/c.jpg complate!\n",
       "move in/sub/deep/d.jpg to out/2021-03-05/d.jpg complate!\n"] :=
  ⟨(preview_changes_nothing toySys (toyCfg 0 true) ⟨toyListing, toyWalked⟩ toyWorld rfl).2.1,
   by decide⟩

/-! ## The outcome of the run -/

theorem walkpath_out {W : Type} (sys : Sys W) (cfg : Config) (p : String) (fi : FileInfo)
    (err : Option Err) (w : W) :
    (walkpath sys cfg p (some fi) err w).out = .returned none := by
  unfold walkpath
  simp only
  split
  · rfl
  · split <;> rfl

mutual
theorem walk_out {W : Type} (sys : Sys W) (cfg : Config) (p : String) (t : WalkTree) (w : W) :
    (walk (walkpath sys cfg) p t w).out =
      if t.lacksInfo then .panicked else .returned none := by
  match t with
  | .noinfo _ e => unfold walk; simp [walkpath, WalkTree.lacksInfo]
  | .file n => unfold walk; simp [walkpath_out, WalkTree.lacksInfo]
  | .baddir n e => unfold walk; simp [walkpath_out, WalkTree.lacksInfo]
  | .dir n es =>
    have h2 := fun u => walkEntries_out sys cfg p es u
    unfold walk
    simp only [walkpath_out, WalkTree.lacksInfo, h2]
theorem walkEntries_out {W : Type} (sys : Sys W) (cfg : Config) (p : String)
    (es : List WalkTree) (w : W) :
    (walkEntries (walkpath sys cfg) p es w).out =
      if anyLacksInfo es then .panicked else .returned none := by
  match es with
  | [] => unfold walkEntries; simp [anyLacksInfo]
  | t :: rest =>
    have h1 := walk_out sys cfg (Join p t.name) t w
    have h2 := fun u => walkEntries_out sys cfg p rest u
    unfold walkEntries
    simp only [anyLacksInfo]
    by_cases ht : t.lacksInfo = true
    · simp only [ht, if_true] at h1
      simp [h1, ht]
    · simp only [ht, if_false] at h1
      simp [h1, h2, ht]
end

/-- C7: the run returns an error exactly when the initial `Stat` of the
source path fails, and `Execute` then prints it and exits with status 1;
when `Stat` fails nothing at all happens (no file is handed to `move`); when
it succeeds the outcome does not depend on what `move` meets (skips, failing
`mkdir` or `mv`): it is nil in bounded mode, and in unbounded mode it is nil
unless `Lstat` fails on an entry of the tree, where `walkpath` panics. -/
theorem run_error_iff_stat_fails {W : Type} (sys : Sys W) (cfg : Config) (src : Source) (w : W) :
    ((∃ e, (RunE sys cfg src w).out = .returned (some e)) ↔ sys.stat w cfg.path ≠ none) ∧
    ((Execute sys cfg src w).2 = some 1 ↔ sys.stat w cfg.path ≠ none) ∧
    (∀ msg, sys.stat w cfg.path = some msg →
      (RunE sys cfg src w).events = [] ∧ (RunE sys cfg src w).world = w ∧
      (RunE sys cfg src w).out = .returned (some (.other msg)) ∧
      Execute sys cfg src w = ([.printed (msg ++ "\n")], some 1)) ∧
    (sys.stat w cfg.path = none →
      (RunE sys cfg src w).out =
        if cfg.depth = 0 ∧ src.walked.lacksInfo = true then .panicked else .returned none) := by
  have hok : sys.stat w cfg.path = none →
      (RunE sys cfg src w).out =
        if cfg.depth = 0 ∧ src.walked.lacksInfo = true then .panicked else .returned none := by
    intro hs
    unfold RunE
    simp only [hs]
    by_cases hd : cfg.depth = 0
    · simp only [hd, if_true, true_and]
      unfold Walk
      have h := walk_out sys cfg cfg.path src.walked w
      cases hl : src.walked.lacksInfo
      · simp only [hl, Bool.false_eq_true, if_false] at h ⊢
        simp [h]
      · simp only [hl, if_true] at h ⊢
        simp [h]
    · simp [hd]
  have hfail : ∀ msg, sys.stat w cfg.path = some msg →
      (RunE sys cfg src w).events = [] ∧ (RunE sys cfg src w).world = w ∧
      (RunE sys cfg src w).out = .returned (some (.other msg)) := by
    intro msg hs
    simp [RunE, hs]
  refine ⟨?_, ?_, ?_, hok⟩
  · constructor
    · rintro ⟨e, he⟩ hs
      rw [hok hs] at he
      split at he <;> simp at he
    · intro hs
      cases hst : sys.stat w cfg.path with
      | none => exact absurd hst hs
      | some msg => exact ⟨_, (hfail msg hst).2.2⟩
  · constructor
    · intro hx hs
      have h := hok hs
      unfold Execute at hx
      simp only at hx
      split at h <;> simp [h] at hx
    · intro hs
      cases hst : sys.stat w cfg.path with
      | none => exact absurd hst hs
      | some msg =>
        have h := hfail msg hst
        unfold Execute
        simp [h.2.2]
  · intro msg hs
    have h := hfail msg hs
    refine ⟨h.1, h.2.1, h.2.2, ?_⟩
    unfold Execute
    simp [h.1, h.2.2]

theorem run_error_iff_stat_fails_witness :
    (RunE toySys (toyCfg 0 false) ⟨toyListing, toyWalked⟩ []).out =
      .returned (some (.other "stat in: no such file or directory")) ∧
    (RunE toySys (toyCfg 0 false) ⟨toyListing, toyWalked⟩ toyWorld).out = .returned none :=
  ⟨((run_error_iff_stat_fails toySys (toyCfg 0 false) ⟨toyListing, toyWalked⟩ []).2.2.1
      "stat in: no such file or directory" (by decide)).2.2.1,
   ((run_error_iff_stat_fails toySys (toyCfg 0 false) ⟨toyListing, toyWalked⟩ toyWorld).2.2.2
      (by decide)).trans (by decide)⟩

end PhotoTool
